import Mathlib

/-!
Verification development for the ask-dad-backend repository.

The repository consists of two near-duplicate Express servers
(`src/server.js` and `src/unnamed/part_000`, the latter called the
"part_000 variant" below).  Both maintain a short-lived in-memory TTS
cache (`TTS_CACHE`), generate answers through an OpenAI chat endpoint,
and stream ElevenLabs audio for cached answers.

Shallow embedding conventions:
* Text is modelled as `List Nat` of Unicode code points (`Text` below).
  JavaScript string primitives (`trim`, `toLowerCase`, regex `replace`)
  are modelled as executable functions on such lists.  JS `toLowerCase`
  is modelled by its ASCII case mapping; all non-ASCII letters are
  removed by the surrounding `[^\w\s]` filter in the one place
  (`normalize`) where case mapping matters, so this agrees with the
  source on every input relevant here.
* Regex global replacement is modelled by left-to-right scanners.  Each
  scanner takes an explicit fuel argument (structural recursion, so that
  concrete instances evaluate inside `decide`); callers pass the input
  length, which is sufficient fuel because every step consumes at least
  one character.
* Effectful vendor calls are modelled by functions that return the list
  of outbound network requests performed (`VendorCall`) alongside the
  response, with the vendor's behaviour supplied as parameters.
* `Math.random().toString(36).slice(2)` is modelled by taking the
  resulting base-36 digit string as a nondeterministic input, and
  `Date.now().toString(36)` by an executable base-36 conversion.
-/

/-- Text as a list of Unicode code points. -/
abbrev Text := List Nat

/-- Code-point test for the JavaScript regex class `\s` (and the
character class removed by `String.prototype.trim`). -/
def isJSWhitespace (c : Nat) : Bool :=
  (9 ≤ c && c ≤ 13) || c == 32 || c == 160 || c == 5760 ||
  (8192 ≤ c && c ≤ 8202) || c == 8232 || c == 8233 || c == 8239 ||
  c == 8287 || c == 12288 || c == 65279

/-- Code-point test for the JavaScript regex class `\w` = `[A-Za-z0-9_]`. -/
def isWordChar (c : Nat) : Bool :=
  (48 ≤ c && c ≤ 57) || (65 ≤ c && c ≤ 90) || (97 ≤ c && c ≤ 122) || c == 95

/-- Code-point test for the regex class `\d` = `[0-9]`. -/
def isDigitChar (c : Nat) : Bool := 48 ≤ c && c ≤ 57

/-- Code-point test for the regex class `[ \t]`. -/
def isSpaceTab (c : Nat) : Bool := c == 32 || c == 9

/-- Code-point test for the regex class `[.!?]`. -/
def isSentencePunct (c : Nat) : Bool := c == 46 || c == 33 || c == 63

/-- Code-point test for the regex class `[\)\.\:]` used by the
numbered-list rules. -/
def isListMark (c : Nat) : Bool := c == 41 || c == 46 || c == 58

/-- ASCII case mapping, modelling `String.prototype.toLowerCase`. -/
def toLowerJS (c : Nat) : Nat := if 65 ≤ c && c ≤ 90 then c + 32 else c

/-- Models `.replace(/[’']/g, "'")` pointwise: both the right
single quote (8217) and the ASCII apostrophe (39) become 39. -/
def mapQuote (c : Nat) : Nat := if c == 8217 || c == 39 then 39 else c

/-- Models `String.prototype.trim`: drop `\s` characters from both ends. -/
def trimChars (l : Text) : Text :=
  ((l.dropWhile isJSWhitespace).reverse.dropWhile isJSWhitespace).reverse

/-- Models a global regex replace whose pattern is a single fixed
character `c`, replacing each occurrence with `s`. -/
def replaceChar (c : Nat) (s : Text) : Text → Text
  | [] => []
  | x :: xs => if x = c then s ++ replaceChar c s xs else x :: replaceChar c s xs

/-- Models a global replace of the pattern `p{m,}` (a maximal run of at
least `m` characters satisfying `p`) by `rep`; shorter runs are kept.
Covers `/[ \t]{2,}/ -> " "`, `/\n{2,}/ -> "\n"`, `/\n{3,}/ -> "\n\n"`
and, with `m = 1`, `/\s+/ -> " "`.  Fuel-driven; the caller passes the
input length. -/
def squeezeRun (p : Nat → Bool) (m : Nat) (rep : Text) : Nat → Text → Text
  | 0, l => l
  | _ + 1, [] => []
  | fuel + 1, c :: rest =>
    if p c then
      (if m ≤ (c :: rest.takeWhile p).length then rep else c :: rest.takeWhile p)
        ++ squeezeRun p m rep fuel (rest.dropWhile p)
    else c :: squeezeRun p m rep fuel rest

/-- Models a global replace of `([X])\s+` by `$1` followed by `rep`,
where `X` is the character class `isP`.  Covers `/([.!?])\s+/ -> "$1 ... "`,
`/([.!?])\s+/ -> "$1 "` and `/,\s+/ -> ", ... "`. -/
def pauseAfter (isP : Nat → Bool) (rep : Text) : Nat → Text → Text
  | 0, l => l
  | _ + 1, [] => []
  | fuel + 1, c :: rest =>
    if isP c then
      match rest with
      | [] => [c]
      | d :: rest2 =>
        if isJSWhitespace d then
          c :: (rep ++ pauseAfter isP rep fuel (rest2.dropWhile isJSWhitespace))
        else c :: pauseAfter isP rep fuel rest
    else c :: pauseAfter isP rep fuel rest

/-- Models one of server.js's numbered-list rules, a global replace of
the pattern `\bD[\)\.\:]\s*` by `rep` for a fixed digit `D`.  The Bool
argument tracks whether the previous character of the original string
is a `\w` character (for the `\b` boundary). -/
def numScan (d : Nat) (rep : Text) : Nat → Bool → Text → Text
  | 0, _, l => l
  | _ + 1, _, [] => []
  | fuel + 1, prevW, c :: rest =>
    if !prevW && c == d then
      match rest with
      | [] => [c]
      | b :: rest2 =>
        if isListMark b then
          rep ++ numScan d rep fuel false (rest2.dropWhile isJSWhitespace)
        else c :: numScan d rep fuel (isWordChar c) rest
    else c :: numScan d rep fuel (isWordChar c) rest

/-- Word "Step " as code points, part of the part_000 list rule. -/
def stepW : Text := ("Step ").toList.map Char.toNat

/-- Separator ": " as code points, part of the part_000 list rule. -/
def colonSpaceW : Text := (": ").toList.map Char.toNat

/-- Models the part_000 rule `\b(\d+)[\)\.\:]\s+ -> "Step $1: "`: a
word-boundary, one or more digits, a list marker and at least one
whitespace character, replaced by `Step`, the digits, and `: `. -/
def stepScan : Nat → Bool → Text → Text
  | 0, _, l => l
  | _ + 1, _, [] => []
  | fuel + 1, prevW, c :: rest =>
    if !prevW && isDigitChar c then
      match rest.dropWhile isDigitChar with
      | [] => c :: stepScan fuel (isWordChar c) rest
      | b :: rest2 =>
        if isListMark b then
          match rest2 with
          | [] => c :: stepScan fuel (isWordChar c) rest
          | e :: rest3 =>
            if isJSWhitespace e then
              stepW ++ (c :: rest.takeWhile isDigitChar) ++ colonSpaceW ++
                stepScan fuel false (rest3.dropWhile isJSWhitespace)
            else c :: stepScan fuel (isWordChar c) rest
        else c :: stepScan fuel (isWordChar c) rest
    else c :: stepScan fuel (isWordChar c) rest

/-- Models server.js's `.replace(/\n/g, ". ")`. -/
def nlToDot : Text → Text
  | [] => []
  | c :: rest => (if c = 10 then [46, 32] else [c]) ++ nlToDot rest

/-- Models the common tail of both `humanCadenceText` variants:
`if (t.length > n) t = t.slice(0, n); return t.trim();`. -/
def truncTrim (n : Nat) (l : Text) : Text :=
  trimChars (if n < l.length then l.take n else l)

/-! ## The symbol-substitution stage `ttsFriendly` (part_000 only)

`ttsFriendly` is a chain of eleven single-character global replaces.
It is modelled as a left fold over the ordered list of
(character code, replacement) pairs, in exactly the source order. -/

/-- Replacement " times " as code points. -/
def timesW : Text := (" times ").toList.map Char.toNat

/-- Replacement " equals " as code points. -/
def equalsW : Text := (" equals ").toList.map Char.toNat

/-- Replacement " plus " as code points. -/
def plusW : Text := (" plus ").toList.map Char.toNat

/-- Replacement " divided by " as code points. -/
def dividedByW : Text := (" divided by ").toList.map Char.toNat

/-- Replacement " less than " as code points. -/
def lessThanW : Text := (" less than ").toList.map Char.toNat

/-- Replacement " greater than " as code points. -/
def greaterThanW : Text := (" greater than ").toList.map Char.toNat

/-- Replacement " less than or equal to " as code points. -/
def leW : Text := (" less than or equal to ").toList.map Char.toNat

/-- Replacement " greater than or equal to " as code points. -/
def geW : Text := (" greater than or equal to ").toList.map Char.toNat

/-- Replacement " to the power of " as code points. -/
def powerOfW : Text := (" to the power of ").toList.map Char.toNat

/-- Replacement " percent " as code points. -/
def percentW : Text := (" percent ").toList.map Char.toNat

/-- Apply a list of single-character replacement stages left to right. -/
def applyStages (ss : List (Nat × Text)) (l : Text) : Text :=
  ss.foldl (fun acc s => replaceChar s.1 s.2 acc) l

/-- The replacement chain of part_000's `ttsFriendly`, in source order:
215 '×', 61 '=', 43 '+', 42 '*', 47 '/', 60 '<', 62 '>',
8804 '≤', 8805 '≥', 94 '^', 37 '%'. -/
def ttsStages : List (Nat × Text) :=
  [(215, timesW), (61, equalsW), (43, plusW), (42, timesW),
   (47, dividedByW), (60, lessThanW), (62, greaterThanW),
   (8804, leW), (8805, geW), (94, powerOfW), (37, percentW)]

namespace Part000

/-- part_000's `ttsFriendly`: the eleven chained symbol replaces. -/
def ttsFriendly (l : Text) : Text := applyStages ttsStages l

/-- part_000's `humanCadenceText`: trim, drop `\r`, squeeze space runs,
squeeze newline runs of three or more to two, rewrite `\b(\d+)[\)\.\:]\s+`
to `Step $1: `, rewrite `([.!?])\s+` to `$1 `, truncate to 1700, trim. -/
def humanCadenceText (l : Text) : Text :=
  let t0 := trimChars l
  let t1 := t0.filter (fun c => !(c == 13))
  let t2 := squeezeRun isSpaceTab 2 [32] t1.length t1
  let t3 := squeezeRun (fun c => c == 10) 3 [10, 10] t2.length t2
  let t4 := stepScan t3.length false t3
  let t5 := pauseAfter isSentencePunct [32] t4.length t4
  truncTrim 1700 t5

/-- The full part_000 shaping applied before speech synthesis:
`humanCadenceText(ttsFriendly(text))`, as in `streamElevenLabsTTS`. -/
def preparedForSpeech (l : Text) : Text := humanCadenceText (ttsFriendly l)

end Part000

namespace ServerJs

/-- Replacement "First: " as code points. -/
def firstW : Text := ("First: ").toList.map Char.toNat

/-- Replacement "Next: " as code points. -/
def nextW : Text := ("Next: ").toList.map Char.toNat

/-- Replacement "Then: " as code points. -/
def thenW : Text := ("Then: ").toList.map Char.toNat

/-- Replacement "After that: " as code points. -/
def afterThatW : Text := ("After that: ").toList.map Char.toNat

/-- Replacement "Finally: " as code points. -/
def finallyW : Text := ("Finally: ").toList.map Char.toNat

/-- Pause insertion " ... " as code points. -/
def pauseW : Text := (" ... ").toList.map Char.toNat

/-- server.js's `humanCadenceText`: trim, drop `\r`, squeeze space runs,
squeeze newline runs to one, turn `\n` into `. `, apply the five
numbered-list rules `\bD[\)\.\:]\s*`, insert ` ... ` pauses after
sentence punctuation and commas, truncate to 1800, trim. -/
def humanCadenceText (l : Text) : Text :=
  let t0 := trimChars l
  let t1 := t0.filter (fun c => !(c == 13))
  let t2 := squeezeRun isSpaceTab 2 [32] t1.length t1
  let t3 := squeezeRun (fun c => c == 10) 2 [10] t2.length t2
  let t4 := nlToDot t3
  let t5 := numScan 49 firstW t4.length false t4
  let t6 := numScan 50 nextW t5.length false t5
  let t7 := numScan 51 thenW t6.length false t6
  let t8 := numScan 52 afterThatW t7.length false t7
  let t9 := numScan 53 finallyW t8.length false t8
  let t10 := pauseAfter isSentencePunct pauseW t9.length t9
  let t11 := pauseAfter (fun c => c == 44) pauseW t10.length t10
  truncTrim 1800 t11

end ServerJs

/-! ## Joke normalization and the dad-joke retry loop (identical in
both variants) -/

/-- The source's `normalize`: lower-case, unify apostrophes, strip
`[^\w\s]`, squeeze `\s+` to a single space, trim.  (Named
`normalizeJoke` here because Mathlib already declares `normalize`.) -/
def normalizeJoke (l : Text) : Text :=
  let t0 := l.map toLowerJS
  let t1 := t0.map mapQuote
  let t2 := t1.filter (fun c => isWordChar c || isJSWhitespace c)
  let t3 := squeezeRun isJSWhitespace 1 [32] t2.length t2
  trimChars t3

/-- `isRepeatedJoke`: some history entry has the same normal form. -/
def isRepeatedJoke (joke : Text) (history : List Text) : Bool :=
  history.any (fun h => normalizeJoke h == normalizeJoke joke)

/-- Fallback when the generator output trims to the empty string:
"My joke drawer glitched… hit me again 😄". -/
def glitchW : Text := ("My joke drawer glitched… hit me again 😄").toList.map Char.toNat

/-- Canned fallback after the attempt budget is exhausted:
"Alright kiddo… my joke drawer’s stuck. Try again 😅". -/
def cannedW : Text := ("Alright kiddo… my joke drawer’s stuck. Try again 😅").toList.map Char.toNat

/-- The joke actually considered by an iteration of the retry loop when
the generator returned `J`: `(r.text || "").trim() || glitch`. -/
def jokeOf (J : Text) : Text := if trimChars J = [] then glitchW else trimChars J

/-- The retry loop of `getDadAnswer` in mode "dadjokes".  `gen` is the
stubbed text generator (`callOpenAIChat`'s returned text, indexed by
attempt number), `b` the remaining attempt budget.  Returns the answer
together with the number of generator calls made. -/
def jokeLoop (gen : Nat → Text) (history : List Text) : Nat → Nat → Text × Nat
  | _, 0 => (cannedW, 0)
  | attempt, b + 1 =>
    let t := trimChars (gen attempt)
    let joke := if t = [] then glitchW else t
    if isRepeatedJoke joke history then
      let r := jokeLoop gen history (attempt + 1) b
      (r.1, r.2 + 1)
    else (joke, 1)

/-- `getDadAnswer` in mode "dadjokes": four attempts starting at 1. -/
def getDadAnswerDadjokes (gen : Nat → Text) (history : List Text) : Text × Nat :=
  jokeLoop gen history 1 4

/-! ## Token generation and the TTS cache (identical in both variants) -/

/-- Digit values (base 36, most significant first) of `n`, fuelled. -/
def toDigits36 : Nat → Nat → List Nat
  | 0, _ => []
  | f + 1, n => if n = 0 then [] else toDigits36 f (n / 36) ++ [n % 36]

/-- Base-36 digit values of `n`, as produced by `Number.toString(36)`
for a natural number (`0` is rendered as the single digit `0`). -/
def natToB36 (n : Nat) : List Nat := if n = 0 then [0] else toDigits36 n n

/-- Code point of a base-36 digit: `0-9` then `a-z`. -/
def b36digitCode (d : Nat) : Nat := if d < 10 then 48 + d else 87 + d

/-- `makeId`: `Math.random().toString(36).slice(2) + Date.now().toString(36)`.
The random part is modelled by its resulting digit string `r` (a
nondeterministic input); the time part by the base-36 rendering of the
millisecond timestamp `t`. -/
def makeId (r : Text) (t : Nat) : Text := r ++ (natToB36 t).map b36digitCode

/-- The cached record: `{ payload: {text, mode}, expiresAt }`. -/
structure TtsPayload where
  text : Text
  mode : Text
deriving DecidableEq

/-- A `TTS_CACHE` value: payload plus absolute expiry time (ms). -/
structure TtsCacheEntry where
  payload : TtsPayload
  expiresAt : Nat
deriving DecidableEq

/-- The `TTS_CACHE` map, modelled as an association list whose most
recent binding comes first (so reads see the latest write, matching
`Map.set`/`Map.get`). -/
abbrev TtsCache := List (Text × TtsCacheEntry)

/-- `TTS_TTL_MS = 10 * 60 * 1000`. -/
def TTS_TTL_MS : Nat := 10 * 60 * 1000

/-- `TTS_CACHE.get(id)`: first binding for `id`. -/
def cacheGet (c : TtsCache) (id : Text) : Option TtsCacheEntry :=
  match c with
  | [] => none
  | p :: rest => if p.1 = id then some p.2 else cacheGet rest id

/-- `cacheTtsPayload`: make a fresh id, store the payload with expiry
`now + TTS_TTL_MS`, return the id (and the updated cache). -/
def cacheTtsPayload (c : TtsCache) (payload : TtsPayload) (r : Text) (now : Nat) :
    Text × TtsCache :=
  let id := makeId r now
  (id, (id, ⟨payload, now + TTS_TTL_MS⟩) :: c)

/-- The periodic sweep body: delete every entry with `expiresAt < now`.
(The source also deletes falsy values, which cannot arise here because
`cacheTtsPayload` always stores a record.) -/
def sweepTtsCache (now : Nat) (c : TtsCache) : TtsCache :=
  c.filter (fun p => !(decide (p.2.expiresAt < now)))

/-- 404 body "TTS expired or not found." as code points. -/
def ttsNotFoundW : Text := ("TTS expired or not found.").toList.map Char.toNat

/-- Default mode label as code points. -/
def defaultModeW : Text := ("default").toList.map Char.toNat

/-- Response of `GET /tts-stream/:id` (identical in both variants):
404 when the id is absent, otherwise hand the payload to
`streamElevenLabsTTS`. -/
inductive TtsStreamResponse
  | notFound (status : Nat) (message : Text)
  | stream (text : Text) (mode : Text)
deriving DecidableEq

/-- The `GET /tts-stream/:id` handler: look the id up in the cache; 404
on a missing entry; otherwise stream `payload.text || ""` with
`payload.mode || "default"`.  Note: the handler never consults
`expiresAt`. -/
def ttsStreamHandler (c : TtsCache) (id : Text) : TtsStreamResponse :=
  match cacheGet c id with
  | none => .notFound 404 ttsNotFoundW
  | some entry =>
    .stream (if entry.payload.text = [] then [] else entry.payload.text)
      (if entry.payload.mode = [] then defaultModeW else entry.payload.mode)

/-! ## Character invariants used by the normalization proofs -/

/-- A character that can occur in the output of `normalizeJoke`:
a non-uppercase `\w` character, or a single space. -/
def normalChar (c : Nat) : Bool :=
  (isWordChar c && !(65 ≤ c && c ≤ 90)) || c == 32

/-- No two adjacent whitespace characters. -/
def NoAdjWS (l : Text) : Prop :=
  List.Chain' (fun a b => ¬(isJSWhitespace a = true ∧ isJSWhitespace b = true)) l

/-- Left part of `trim`: drop leading whitespace. -/
def ltrimWS (l : Text) : Text := l.dropWhile isJSWhitespace

/-- Right part of `trim`: drop trailing whitespace. -/
def rtrimWS (l : Text) : Text := (l.reverse.dropWhile isJSWhitespace).reverse

/-! ## Vendor-call models

Effectful functions are modelled by returning the list of outbound
network requests they perform alongside their result; the vendor's
behaviour (HTTP success and extracted text) is passed in as parameters.
Request-body construction (prompts, voice settings) is carried along
only where a claim depends on it. -/

/-- An outbound network request to a vendor. -/
inductive VendorCall
  | openAIChat
  | openAIResponses
  | elevenLabs
deriving DecidableEq

/-- Error text "Missing OPENAI_API_KEY on backend.". -/
def missingOpenAIW : Text := ("Missing OPENAI_API_KEY on backend.").toList.map Char.toNat

/-- Fallback "Dad brain is busy right now. Try again in a minute.". -/
def dadBusyW : Text :=
  ("Dad brain is busy right now. Try again in a minute.").toList.map Char.toNat

/-- Fallback "…Dad blanked. Try again.". -/
def dadBlankedW : Text := ("…Dad blanked. Try again.").toList.map Char.toNat

/-- Fallback "Homework Dad is busy right now. Try again in a minute.". -/
def homeworkBusyW : Text :=
  ("Homework Dad is busy right now. Try again in a minute.").toList.map Char.toNat

/-- Fallback "I couldn’t read that clearly—try a brighter, closer photo.". -/
def cantReadW : Text :=
  ("I couldn’t read that clearly—try a brighter, closer photo.").toList.map Char.toNat

/-- Error text "Missing ELEVENLABS_API_KEY or ELEVENLABS_VOICE_ID.". -/
def missingElevenW : Text :=
  ("Missing ELEVENLABS_API_KEY or ELEVENLABS_VOICE_ID.").toList.map Char.toNat

/-- Error text "ElevenLabs request failed". -/
def elevenFetchFailW : Text := ("ElevenLabs request failed").toList.map Char.toNat

/-- Error text "ElevenLabs TTS failed". -/
def elevenFailW : Text := ("ElevenLabs TTS failed").toList.map Char.toNat

/-- server.js `callOpenAIChat`: with no `OPENAI_API_KEY` it returns
`{ok: false, text: "Missing OPENAI_API_KEY on backend."}` without
fetching; otherwise it performs one chat-completions request, mapping a
non-2xx response to the busy fallback and an empty extracted message to
the blanked fallback.  `netOk`/`netText` model the vendor response. -/
def callOpenAIChat (apiKey : Option Text) (netOk : Bool) (netText : Text) :
    List VendorCall × (Bool × Text) :=
  match apiKey with
  | none => ([], (false, missingOpenAIW))
  | some _ =>
    ([VendorCall.openAIChat],
      if netOk then
        (true, if trimChars netText = [] then dadBlankedW else trimChars netText)
      else (false, dadBusyW))

/-- server.js `callOpenAIResponses`: same credential gate as
`callOpenAIChat`, then one Responses-API request; `netText` models the
concatenated `output_text` items. -/
def callOpenAIResponses (apiKey : Option Text) (netOk : Bool) (netText : Text) :
    List VendorCall × (Bool × Text) :=
  match apiKey with
  | none => ([], (false, missingOpenAIW))
  | some _ =>
    ([VendorCall.openAIResponses],
      if netOk then
        (true, if trimChars netText = [] then cantReadW else trimChars netText)
      else (false, homeworkBusyW))

/-- Outcome of the ElevenLabs fetch, as seen by `streamElevenLabsTTS`. -/
inductive ElevenNet
  | fetchError
  | httpError
  | ok
deriving DecidableEq

/-- Response written by `streamElevenLabsTTS`. -/
inductive StreamResponse
  | errorJson (status : Nat) (message : Text)
  | audio (prepared : Text)
deriving DecidableEq

namespace ServerJs

/-- server.js `streamElevenLabsTTS`: with a missing API key or voice id
it writes a 500 JSON error before any fetch; otherwise it shapes the
text with `humanCadenceText` and performs one streaming request,
relaying the audio on success.  (Voice-settings construction is omitted:
no claim concerns it.) -/
def streamElevenLabsTTS (apiKey voiceId : Option Text) (text mode : Text)
    (net : ElevenNet) : List VendorCall × StreamResponse :=
  if apiKey = none ∨ voiceId = none then
    ([], .errorJson 500 missingElevenW)
  else
    ([VendorCall.elevenLabs],
      match net with
      | .fetchError => .errorJson 500 elevenFetchFailW
      | .httpError => .errorJson 500 elevenFailW
      | .ok => .audio (humanCadenceText text))

end ServerJs

/-- Response of `POST /homework-help`. -/
inductive HomeworkResponse
  | clientError (status : Nat) (message : Text)
  | okJson (answer : Text) (ttsId : Text)
deriving DecidableEq

/-- server.js 400 body "Image too large. Try a closer photo of just the problem.". -/
def imageTooLargeW : Text :=
  ("Image too large. Try a closer photo of just the problem.").toList.map Char.toNat

/-- part_000 400 body "Image too large. Try again with a clearer close-up photo.". -/
def imageTooLargeP000W : Text :=
  ("Image too large. Try again with a clearer close-up photo.").toList.map Char.toNat

/-- server.js fallback "I couldn’t read that clearly—try a closer photo with better lighting.". -/
def cantReadCloserW : Text :=
  ("I couldn’t read that clearly—try a closer photo with better lighting.").toList.map Char.toNat

/-- part_000 fallback "Dad couldn’t read that clearly—try another photo with better lighting.". -/
def cantReadP000W : Text :=
  ("Dad couldn’t read that clearly—try another photo with better lighting.").toList.map Char.toNat

/-- Mode label "homework". -/
def homeworkModeW : Text := ("homework").toList.map Char.toNat

namespace ServerJs

/-- server.js `POST /homework-help`: reject an oversized `imageBase64`
(truthy and longer than 7,000,000) with a 400 before anything else;
otherwise run `getHomeworkHelp` (one `callOpenAIResponses` call with its
empty-answer fallback), cache the answer under mode "homework" and
answer 200 with the tts id. -/
def homeworkHelpHandler (apiKey : Option Text) (question imageBase64 : Text)
    (netOk : Bool) (netText : Text) (r : Text) (now : Nat) (cache : TtsCache) :
    List VendorCall × HomeworkResponse × TtsCache :=
  if imageBase64 ≠ [] ∧ 7000000 < imageBase64.length then
    ([], .clientError 400 imageTooLargeW, cache)
  else
    let res := callOpenAIResponses apiKey netOk netText
    let answer := if trimChars res.2.2 = [] then cantReadCloserW else trimChars res.2.2
    let idc := cacheTtsPayload cache ⟨answer, homeworkModeW⟩ r now
    (res.1, .okJson answer idc.1, idc.2)

end ServerJs

namespace Part000

/-- part_000 `callOpenAI` (same structure and strings as server.js's
`callOpenAIChat`). -/
def callOpenAI (apiKey : Option Text) (netOk : Bool) (netText : Text) :
    List VendorCall × (Bool × Text) :=
  match apiKey with
  | none => ([], (false, missingOpenAIW))
  | some _ =>
    ([VendorCall.openAIChat],
      if netOk then
        (true, if trimChars netText = [] then dadBlankedW else trimChars netText)
      else (false, dadBusyW))

/-- part_000 `POST /homework-help`: same oversize gate (different 400
message), then `getHomeworkHelp` via `callOpenAI` with part_000's
fallback, cache under "homework", answer 200. -/
def homeworkHelpHandler (apiKey : Option Text) (question imageBase64 : Text)
    (netOk : Bool) (netText : Text) (r : Text) (now : Nat) (cache : TtsCache) :
    List VendorCall × HomeworkResponse × TtsCache :=
  if imageBase64 ≠ [] ∧ 7000000 < imageBase64.length then
    ([], .clientError 400 imageTooLargeP000W, cache)
  else
    let res := callOpenAI apiKey netOk netText
    let answer := if trimChars res.2.2 = [] then cantReadP000W else trimChars res.2.2
    let idc := cacheTtsPayload cache ⟨answer, homeworkModeW⟩ r now
    (res.1, .okJson answer idc.1, idc.2)

end Part000

/-! ## Concrete fixtures for witnesses and counterexamples -/

/-- "1=2" as code points. -/
def oneEqTwoW : Text := ("1=2").toList.map Char.toNat

/-- "1. Go" as code points. -/
def oneDotGoW : Text := ("1. Go").toList.map Char.toNat

/-- "hello" as code points. -/
def helloW : Text := ("hello").toList.map Char.toNat

/-- "soft" as code points. -/
def softW : Text := ("soft").toList.map Char.toNat

/-- "t" as code points: a concrete cache token. -/
def tokW : Text := ("t").toList.map Char.toNat

/-- A concrete one-entry cache whose entry expires at time 5. -/
def cacheEx : TtsCache := [(tokW, ⟨⟨helloW, softW⟩, 5⟩)]

/-- "Why did the scarecrow win an award" as code points. -/
def scarecrowW : Text := ("Why did the scarecrow win an award").toList.map Char.toNat

/-- An oversized `imageBase64`: 7,000,001 characters. -/
def bigImageW : Text := List.replicate 7000001 97

/-- "Hello there" as code points. -/
def helloThere1W : Text := ("Hello there").toList.map Char.toNat

/-- "  hello, THERE!! " as code points. -/
def helloThere2W : Text := ("  hello, THERE!! ").toList.map Char.toNat

/-- "HELLO THERE" as code points. -/
def helloThere3W : Text := ("HELLO THERE").toList.map Char.toNat

/-- "hello there" as code points. -/
def helloThere4W : Text := ("hello there").toList.map Char.toNat

/-! ## Basic list helpers -/

theorem mem_of_mem_takeWhile {p : Nat → Bool} {a : Nat} :
    ∀ {l : Text}, a ∈ l.takeWhile p → a ∈ l := by
  intro l h
  induction l with
  | nil => simpa using h
  | cons c rest ih =>
    rw [List.takeWhile_cons] at h
    by_cases hc : p c
    · simp [hc] at h
      rcases h with h | h
      · simp [h]
      · exact List.mem_cons_of_mem _ (ih h)
    · simp [hc] at h

theorem mem_of_mem_dropWhile {p : Nat → Bool} {a : Nat} :
    ∀ {l : Text}, a ∈ l.dropWhile p → a ∈ l := by
  intro l h
  induction l with
  | nil => simpa using h
  | cons c rest ih =>
    rw [List.dropWhile_cons] at h
    by_cases hc : p c
    · simp [hc] at h
      exact List.mem_cons_of_mem _ (ih h)
    · simpa [hc] using h

theorem length_dropWhile_le (p : Nat → Bool) :
    ∀ l : Text, (l.dropWhile p).length ≤ l.length := by
  intro l
  induction l with
  | nil => simp
  | cons c rest ih =>
    rw [List.dropWhile_cons]
    by_cases hc : p c
    · simp only [hc, if_true]
      exact le_trans ih (Nat.le_succ _)
    · simp [hc]

theorem mem_trimChars {a : Nat} {l : Text} (h : a ∈ trimChars l) : a ∈ l := by
  unfold trimChars at h
  rw [List.mem_reverse] at h
  have h2 := mem_of_mem_dropWhile h
  rw [List.mem_reverse] at h2
  exact mem_of_mem_dropWhile h2

theorem trimChars_length_le (l : Text) : (trimChars l).length ≤ l.length := by
  unfold trimChars
  rw [List.length_reverse]
  calc ((l.dropWhile isJSWhitespace).reverse.dropWhile isJSWhitespace).length
      ≤ (l.dropWhile isJSWhitespace).reverse.length := length_dropWhile_le _ _
    _ = (l.dropWhile isJSWhitespace).length := List.length_reverse _
    _ ≤ l.length := length_dropWhile_le _ _

/-! ## Membership lemmas for the scanners: each output character comes
from the input or from a replacement string. -/

theorem mem_replaceChar {a c : Nat} {s : Text} :
    ∀ {l : Text}, a ∈ replaceChar c s l → a ∈ l ∨ a ∈ s := by
  intro l h
  induction l with
  | nil => simpa [replaceChar] using h
  | cons x xs ih =>
    unfold replaceChar at h
    by_cases hx : x = c
    · simp only [hx, if_true] at h
      rcases List.mem_append.mp h with h | h
      · exact Or.inr h
      · rcases ih h with h | h
        · exact Or.inl (List.mem_cons_of_mem _ h)
        · exact Or.inr h
    · simp only [hx, if_false, List.mem_cons] at h
      rcases h with h | h
      · exact Or.inl (by simp [h])
      · rcases ih h with h | h
        · exact Or.inl (List.mem_cons_of_mem _ h)
        · exact Or.inr h

theorem replaceChar_not_mem {c : Nat} {s : Text} (hs : c ∉ s) :
    ∀ l : Text, c ∈ replaceChar c s l → False := by
  intro l h
  induction l with
  | nil => simp [replaceChar] at h
  | cons x xs ih =>
    unfold replaceChar at h
    by_cases hx : x = c
    · simp only [hx, if_true] at h
      rcases List.mem_append.mp h with h | h
      · exact hs h
      · exact ih h
    · simp only [hx, if_false, List.mem_cons] at h
      rcases h with h | h
      · exact hx h.symm
      · exact ih h

theorem replaceChar_eq_self {c : Nat} {s : Text} :
    ∀ {l : Text}, c ∉ l → replaceChar c s l = l := by
  intro l h
  induction l with
  | nil => rfl
  | cons x xs ih =>
    unfold replaceChar
    have hx : ¬x = c := fun e => h (by simp [e])
    simp only [hx, if_false]
    rw [ih (fun hm => h (List.mem_cons_of_mem _ hm))]

theorem mem_squeezeRun {p : Nat → Bool} {m : Nat} {rep : Text} {a : Nat} :
    ∀ fuel (l : Text), a ∈ squeezeRun p m rep fuel l → a ∈ l ∨ a ∈ rep := by
  intro fuel
  induction fuel with
  | zero => intro l h; exact Or.inl h
  | succ f ih =>
    intro l h
    match l with
    | [] => simp [squeezeRun] at h
    | c :: rest =>
      unfold squeezeRun at h
      by_cases hc : p c
      · rw [if_pos hc] at h
        rcases List.mem_append.mp h with h | h
        · by_cases hm : m ≤ (c :: rest.takeWhile p).length
          · rw [if_pos hm] at h
            exact Or.inr h
          · rw [if_neg hm] at h
            rcases List.mem_cons.mp h with h | h
            · exact Or.inl (by simp [h])
            · exact Or.inl (List.mem_cons_of_mem _ (mem_of_mem_takeWhile h))
        · rcases ih _ h with h | h
          · exact Or.inl (List.mem_cons_of_mem _ (mem_of_mem_dropWhile h))
          · exact Or.inr h
      · rw [if_neg hc] at h
        rcases List.mem_cons.mp h with h | h
        · exact Or.inl (by simp [h])
        · rcases ih _ h with h | h
          · exact Or.inl (List.mem_cons_of_mem _ h)
          · exact Or.inr h

theorem mem_pauseAfter {isP : Nat → Bool} {rep : Text} {a : Nat} :
    ∀ fuel (l : Text), a ∈ pauseAfter isP rep fuel l → a ∈ l ∨ a ∈ rep := by
  intro fuel
  induction fuel with
  | zero => intro l h; exact Or.inl h
  | succ f ih =>
    intro l h
    match l with
    | [] => simp [pauseAfter] at h
    | c :: rest =>
      unfold pauseAfter at h
      by_cases hc : isP c
      · rw [if_pos hc] at h
        cases rest with
        | nil =>
          simp only [] at h
          exact Or.inl h
        | cons d rest2 =>
          simp only [] at h
          by_cases hd : isJSWhitespace d
          · rw [if_pos hd] at h
            rcases List.mem_cons.mp h with h | h
            · exact Or.inl (by simp [h])
            · rcases List.mem_append.mp h with h | h
              · exact Or.inr h
              · rcases ih _ h with h | h
                · exact Or.inl (List.mem_cons_of_mem _
                    (List.mem_cons_of_mem _ (mem_of_mem_dropWhile h)))
                · exact Or.inr h
          · rw [if_neg hd] at h
            rcases List.mem_cons.mp h with h | h
            · exact Or.inl (by simp [h])
            · rcases ih _ h with h | h
              · exact Or.inl (List.mem_cons_of_mem _ h)
              · exact Or.inr h
      · rw [if_neg hc] at h
        rcases List.mem_cons.mp h with h | h
        · exact Or.inl (by simp [h])
        · rcases ih _ h with h | h
          · exact Or.inl (List.mem_cons_of_mem _ h)
          · exact Or.inr h

theorem mem_numScan {d : Nat} {rep : Text} {a : Nat} :
    ∀ fuel (w : Bool) (l : Text), a ∈ numScan d rep fuel w l → a ∈ l ∨ a ∈ rep := by
  intro fuel
  induction fuel with
  | zero => intro w l h; exact Or.inl h
  | succ f ih =>
    intro w l h
    match l with
    | [] => simp [numScan] at h
    | c :: rest =>
      unfold numScan at h
      by_cases hc : (!w && c == d) = true
      · rw [if_pos hc] at h
        cases rest with
        | nil =>
          simp only [] at h
          exact Or.inl h
        | cons b rest2 =>
          simp only [] at h
          by_cases hb : isListMark b
          · rw [if_pos hb] at h
            rcases List.mem_append.mp h with h | h
            · exact Or.inr h
            · rcases ih _ _ h with h | h
              · exact Or.inl (List.mem_cons_of_mem _
                  (List.mem_cons_of_mem _ (mem_of_mem_dropWhile h)))
              · exact Or.inr h
          · rw [if_neg hb] at h
            rcases List.mem_cons.mp h with h | h
            · exact Or.inl (by simp [h])
            · rcases ih _ _ h with h | h
              · exact Or.inl (List.mem_cons_of_mem _ h)
              · exact Or.inr h
      · rw [if_neg hc] at h
        rcases List.mem_cons.mp h with h | h
        · exact Or.inl (by simp [h])
        · rcases ih _ _ h with h | h
          · exact Or.inl (List.mem_cons_of_mem _ h)
          · exact Or.inr h

theorem mem_stepScan {a : Nat} :
    ∀ fuel (w : Bool) (l : Text),
      a ∈ stepScan fuel w l → a ∈ l ∨ a ∈ stepW ∨ a ∈ colonSpaceW := by
  intro fuel
  induction fuel with
  | zero => intro w l h; exact Or.inl h
  | succ f ih =>
    intro w l h
    match l with
    | [] => simp [stepScan] at h
    | c :: rest =>
      unfold stepScan at h
      by_cases hc : (!w && isDigitChar c) = true
      · rw [if_pos hc] at h
        cases hrest : rest.dropWhile isDigitChar with
        | nil =>
          rw [hrest] at h
          simp only [] at h
          rcases List.mem_cons.mp h with h | h
          · exact Or.inl (by simp [h])
          · rcases ih _ _ h with h | h
            · exact Or.inl (List.mem_cons_of_mem _ h)
            · exact Or.inr h
        | cons b rest2 =>
          rw [hrest] at h
          simp only [] at h
          by_cases hb : isListMark b
          · rw [if_pos hb] at h
            cases rest2 with
            | nil =>
              simp only [] at h
              rcases List.mem_cons.mp h with h | h
              · exact Or.inl (by simp [h])
              · rcases ih _ _ h with h | h
                · exact Or.inl (List.mem_cons_of_mem _ h)
                · exact Or.inr h
            | cons e rest3 =>
              simp only [] at h
              by_cases he : isJSWhitespace e
              · rw [if_pos he] at h
                rcases List.mem_append.mp h with h | h
                · rcases List.mem_append.mp h with h | h
                  · rcases List.mem_append.mp h with h | h
                    · exact Or.inr (Or.inl h)
                    · rcases List.mem_cons.mp h with h | h
                      · exact Or.inl (by simp [h])
                      · exact Or.inl (List.mem_cons_of_mem _ (mem_of_mem_takeWhile h))
                  · exact Or.inr (Or.inr h)
                · rcases ih _ _ h with h | h
                  · -- the continuation sits inside the tail of the digit run
                    have h1 : a ∈ rest3 := mem_of_mem_dropWhile h
                    have h2 : a ∈ b :: e :: rest3 :=
                      List.mem_cons_of_mem _ (List.mem_cons_of_mem _ h1)
                    rw [← hrest] at h2
                    exact Or.inl (List.mem_cons_of_mem _ (mem_of_mem_dropWhile h2))
                  · exact Or.inr h
              · rw [if_neg he] at h
                rcases List.mem_cons.mp h with h | h
                · exact Or.inl (by simp [h])
                · rcases ih _ _ h with h | h
                  · exact Or.inl (List.mem_cons_of_mem _ h)
                  · exact Or.inr h
          · rw [if_neg hb] at h
            rcases List.mem_cons.mp h with h | h
            · exact Or.inl (by simp [h])
            · rcases ih _ _ h with h | h
              · exact Or.inl (List.mem_cons_of_mem _ h)
              · exact Or.inr h
      · rw [if_neg hc] at h
        rcases List.mem_cons.mp h with h | h
        · exact Or.inl (by simp [h])
        · rcases ih _ _ h with h | h
          · exact Or.inl (List.mem_cons_of_mem _ h)
          · exact Or.inr h

theorem mem_nlToDot {a : Nat} :
    ∀ {l : Text}, a ∈ nlToDot l → a ∈ l ∨ a ∈ [46, 32] := by
  intro l h
  induction l with
  | nil => simpa [nlToDot] using h
  | cons c rest ih =>
    unfold nlToDot at h
    rcases List.mem_append.mp h with h | h
    · by_cases hc : c = 10
      · simp only [hc, if_true] at h
        exact Or.inr h
      · simp only [hc, if_false, List.mem_singleton] at h
        exact Or.inl (by simp [h])
    · rcases ih h with h | h
      · exact Or.inl (List.mem_cons_of_mem _ h)
      · exact Or.inr h

theorem mem_truncTrim {a : Nat} {n : Nat} {l : Text} (h : a ∈ truncTrim n l) :
    a ∈ l := by
  unfold truncTrim at h
  have h1 := mem_trimChars h
  by_cases hn : n < l.length
  · rw [if_pos hn] at h1
    exact List.mem_of_mem_take h1
  · rwa [if_neg hn] at h1

/-! ## Properties of the replacement chain `applyStages` -/

theorem applyStages_cons (s : Nat × Text) (ss : List (Nat × Text)) (l : Text) :
    applyStages (s :: ss) l = applyStages ss (replaceChar s.1 s.2 l) := rfl

theorem applyStages_append (ss1 ss2 : List (Nat × Text)) (l : Text) :
    applyStages (ss1 ++ ss2) l = applyStages ss2 (applyStages ss1 l) :=
  List.foldl_append _ _ _ _

theorem applyStages_not_mem {a : Nat} :
    ∀ (ss : List (Nat × Text)) (l : Text), a ∉ l → (∀ s ∈ ss, a ∉ s.2) →
      a ∉ applyStages ss l := by
  intro ss
  induction ss with
  | nil => intro l hl _ h; exact hl h
  | cons s rest ih =>
    intro l hl hs h
    rw [applyStages_cons] at h
    refine ih _ (fun hm => ?_) (fun q hq => hs q (List.mem_cons_of_mem _ hq)) h
    rcases mem_replaceChar hm with hm | hm
    · exact hl hm
    · exact hs s (List.mem_cons_self _ _) hm

theorem applyStages_kill (ss1 : List (Nat × Text)) {ss2 : List (Nat × Text)}
    {s : Nat × Text} :
    s.1 ∉ s.2 → (∀ q ∈ ss2, s.1 ∉ q.2) →
      ∀ l : Text, s.1 ∉ applyStages (ss1 ++ s :: ss2) l := by
  intro h1 h2 l h
  rw [applyStages_append, applyStages_cons] at h
  refine applyStages_not_mem ss2 _ (fun hm => ?_) h2 h
  exact replaceChar_not_mem h1 _ hm

theorem applyStages_fixed :
    ∀ (ss : List (Nat × Text)) (l : Text), (∀ s ∈ ss, s.1 ∉ l) →
      applyStages ss l = l := by
  intro ss
  induction ss with
  | nil => intro l _; rfl
  | cons s rest ih =>
    intro l hs
    rw [applyStages_cons, replaceChar_eq_self (hs s (List.mem_cons_self _ _))]
    exact ih _ (fun q hq => hs q (List.mem_cons_of_mem _ hq))

/-- No stage character of `ttsFriendly` survives in its output: each
of the eleven special symbols is eliminated by its own stage and never
reintroduced by a later replacement word. -/
theorem ttsFriendly_no_special (l : Text) :
    ∀ s ∈ ttsStages, s.1 ∉ Part000.ttsFriendly l := by
  intro s hs
  unfold Part000.ttsFriendly
  rw [show ttsStages =
      [(215, timesW), (61, equalsW), (43, plusW), (42, timesW),
       (47, dividedByW), (60, lessThanW), (62, greaterThanW),
       (8804, leW), (8805, geW), (94, powerOfW), (37, percentW)] from rfl] at hs
  simp only [List.mem_cons, List.not_mem_nil, or_false] at hs
  rcases hs with h | h | h | h | h | h | h | h | h | h | h
  · exact h ▸ applyStages_kill ([]) (by decide) (by decide) l
  · exact h ▸ applyStages_kill ([(215, timesW)]) (by decide) (by decide) l
  · exact h ▸ applyStages_kill ([(215, timesW), (61, equalsW)])
      (by decide) (by decide) l
  · exact h ▸ applyStages_kill ([(215, timesW), (61, equalsW), (43, plusW)])
      (by decide) (by decide) l
  · exact h ▸ applyStages_kill
      ([(215, timesW), (61, equalsW), (43, plusW), (42, timesW)])
      (by decide) (by decide) l
  · exact h ▸ applyStages_kill
      ([(215, timesW), (61, equalsW), (43, plusW), (42, timesW),
        (47, dividedByW)]) (by decide) (by decide) l
  · exact h ▸ applyStages_kill
      ([(215, timesW), (61, equalsW), (43, plusW), (42, timesW),
        (47, dividedByW), (60, lessThanW)]) (by decide) (by decide) l
  · exact h ▸ applyStages_kill
      ([(215, timesW), (61, equalsW), (43, plusW), (42, timesW),
        (47, dividedByW), (60, lessThanW), (62, greaterThanW)])
      (by decide) (by decide) l
  · exact h ▸ applyStages_kill
      ([(215, timesW), (61, equalsW), (43, plusW), (42, timesW),
        (47, dividedByW), (60, lessThanW), (62, greaterThanW), (8804, leW)])
      (by decide) (by decide) l
  · exact h ▸ applyStages_kill
      ([(215, timesW), (61, equalsW), (43, plusW), (42, timesW),
        (47, dividedByW), (60, lessThanW), (62, greaterThanW), (8804, leW),
        (8805, geW)]) (by decide) (by decide) l
  · exact h ▸ applyStages_kill
      ([(215, timesW), (61, equalsW), (43, plusW), (42, timesW),
        (47, dividedByW), (60, lessThanW), (62, greaterThanW), (8804, leW),
        (8805, geW), (94, powerOfW)]) (by decide) (by decide) l

/-- `ttsFriendly` is idempotent. -/
theorem ttsFriendly_idem (l : Text) :
    Part000.ttsFriendly (Part000.ttsFriendly l) = Part000.ttsFriendly l := by
  have := ttsFriendly_no_special l
  unfold Part000.ttsFriendly
  exact applyStages_fixed ttsStages _ this

/-! ## Length bound of the shaping -/

theorem truncTrim_length_le (n : Nat) (l : Text) : (truncTrim n l).length ≤ n := by
  unfold truncTrim
  by_cases hn : n < l.length
  · rw [if_pos hn]
    calc (trimChars (l.take n)).length ≤ (l.take n).length := trimChars_length_le _
      _ ≤ n := by rw [List.length_take]; exact min_le_left _ _
  · rw [if_neg hn]
    calc (trimChars l).length ≤ l.length := trimChars_length_le _
      _ ≤ n := Nat.le_of_not_lt hn

/-! ## Characters that the part_000 cadence pass cannot introduce -/

theorem not_mem_humanCadenceTextP {a : Nat} {l : Text}
    (hl : a ∉ l) (h32 : a ≠ 32) (h10 : a ≠ 10) (hstep : a ∉ stepW)
    (hcolon : a ∉ colonSpaceW) : a ∉ Part000.humanCadenceText l := by
  intro h
  unfold Part000.humanCadenceText at h
  simp only [] at h
  rcases mem_pauseAfter _ _ (mem_truncTrim h) with h4 | h4
  · rcases mem_stepScan _ _ _ h4 with h3 | h3 | h3
    · rcases mem_squeezeRun _ _ h3 with h2 | h2
      · rcases mem_squeezeRun _ _ h2 with h1 | h1
        · exact hl (mem_trimChars (List.mem_of_mem_filter h1))
        · exact h32 (by simpa using h1)
      · exact h10 (by rcases List.mem_cons.mp h2 with h | h <;> simpa using h)
    · exact hstep h3
    · exact hcolon h3
  · exact h32 (by simpa using h4)

/-- No `=` (code 61) appears in the full part_000 shaping output. -/
theorem equals_not_mem_prepared (l : Text) :
    (61 : Nat) ∉ Part000.preparedForSpeech l := by
  unfold Part000.preparedForSpeech
  have h61 : (61 : Nat) ∉ Part000.ttsFriendly l :=
    ttsFriendly_no_special l (61, equalsW) (by decide)
  exact not_mem_humanCadenceTextP h61 (by decide) (by decide) (by decide) (by decide)

/-! ## dropWhile / trim facts -/

theorem dropWhile_head_not {p : Nat → Bool} :
    ∀ {l : Text} {x : Nat}, (l.dropWhile p).head? = some x → p x = false := by
  intro l
  induction l with
  | nil => intro x h; simp at h
  | cons c rest ih =>
    intro x h
    rw [List.dropWhile_cons] at h
    by_cases hc : p c
    · rw [if_pos hc] at h
      exact ih h
    · rw [if_neg hc] at h
      simp at h
      rw [← h]
      simpa using hc

theorem dropWhile_eq_self_of_head {p : Nat → Bool} :
    ∀ {l : Text}, (∀ x, l.head? = some x → p x = false) → l.dropWhile p = l := by
  intro l h
  cases l with
  | nil => rfl
  | cons c rest =>
    rw [List.dropWhile_cons, if_neg]
    simp [h c rfl]

theorem takeWhile_eq_nil_of_head {p : Nat → Bool} :
    ∀ {l : Text}, (∀ x, l.head? = some x → p x = false) → l.takeWhile p = [] := by
  intro l h
  cases l with
  | nil => rfl
  | cons c rest =>
    rw [List.takeWhile_cons, if_neg]
    simp [h c rfl]

theorem dropWhile_dropWhile (p : Nat → Bool) (l : Text) :
    (l.dropWhile p).dropWhile p = l.dropWhile p :=
  dropWhile_eq_self_of_head (fun _ h => dropWhile_head_not h)

theorem dropWhile_append_last {p : Nat → Bool} {c : Nat} (hc : p c = false) :
    ∀ l : Text, (l ++ [c]).dropWhile p = l.dropWhile p ++ [c] := by
  intro l
  induction l with
  | nil => simp [List.dropWhile_cons, hc]
  | cons x xs ih =>
    rw [List.cons_append, List.dropWhile_cons, List.dropWhile_cons]
    by_cases hx : p x
    · rw [if_pos hx, if_pos hx, ih]
    · rw [if_neg hx, if_neg hx, List.cons_append]

theorem rtrimWS_cons {c : Nat} (hc : isJSWhitespace c = false) (l : Text) :
    rtrimWS (c :: l) = c :: rtrimWS l := by
  unfold rtrimWS
  rw [List.reverse_cons, dropWhile_append_last hc, List.reverse_append]
  rfl

theorem rtrimWS_idem (l : Text) : rtrimWS (rtrimWS l) = rtrimWS l := by
  unfold rtrimWS
  rw [List.reverse_reverse, dropWhile_dropWhile]

theorem trimChars_eq_comp (l : Text) : trimChars l = rtrimWS (ltrimWS l) := rfl

theorem trimChars_idem (l : Text) : trimChars (trimChars l) = trimChars l := by
  rw [trimChars_eq_comp, trimChars_eq_comp]
  cases hz : ltrimWS l with
  | nil => simp [rtrimWS, ltrimWS]
  | cons c rest =>
    have hc : isJSWhitespace c = false := by
      have : (ltrimWS l).head? = some c := by rw [hz]; rfl
      exact dropWhile_head_not this
    rw [rtrimWS_cons hc]
    have hl : ltrimWS (c :: rtrimWS rest) = c :: rtrimWS rest := by
      unfold ltrimWS
      exact dropWhile_eq_self_of_head (fun x hx => by
        simp at hx
        rw [← hx]
        exact hc)
    rw [hl, rtrimWS_cons hc, rtrimWS_idem]

/-! ## The `\s+ -> " "` squeeze: structure of its output -/

theorem squeezeRun_head_of_not {p : Nat → Bool} {m : Nat} {rep : Text} {x : Nat} :
    ∀ (fuel : Nat) {l : Text}, l.head? = some x → p x = false →
      (squeezeRun p m rep fuel l).head? = some x := by
  intro fuel l hx hpx
  cases fuel with
  | zero => exact hx
  | succ f =>
    cases l with
    | nil => simp at hx
    | cons c rest =>
      simp at hx
      unfold squeezeRun
      rw [if_neg (by rw [hx]; simp [hpx])]
      simp [hx]

theorem mem_squeezeRun_one {p : Nat → Bool} {rep : Text} {a : Nat} :
    ∀ (fuel : Nat) (l : Text), l.length ≤ fuel →
      a ∈ squeezeRun p 1 rep fuel l → (a ∈ l ∧ p a = false) ∨ a ∈ rep := by
  intro fuel
  induction fuel with
  | zero =>
    intro l hl h
    have : l = [] := List.length_eq_zero.mp (Nat.le_zero.mp hl)
    rw [this] at h
    simp [squeezeRun] at h
  | succ f ih =>
    intro l hl h
    match l with
    | [] => simp [squeezeRun] at h
    | c :: rest =>
      unfold squeezeRun at h
      by_cases hc : p c
      · rw [if_pos hc, if_pos (by simp)] at h
        rcases List.mem_append.mp h with h | h
        · exact Or.inr h
        · have hlen : (rest.dropWhile p).length ≤ f :=
            le_trans (length_dropWhile_le _ _) (by simpa using hl)
          rcases ih _ hlen h with ⟨h1, h2⟩ | h
          · exact Or.inl ⟨List.mem_cons_of_mem _ (mem_of_mem_dropWhile h1), h2⟩
          · exact Or.inr h
      · rw [if_neg hc] at h
        rcases List.mem_cons.mp h with h | h
        · exact Or.inl ⟨by simp [h], by rw [h]; simpa using hc⟩
        · have hlen : rest.length ≤ f := by simpa using hl
          rcases ih _ hlen h with ⟨h1, h2⟩ | h
          · exact Or.inl ⟨List.mem_cons_of_mem _ h1, h2⟩
          · exact Or.inr h

theorem squeezeRun_noAdjWS :
    ∀ (fuel : Nat) (l : Text), l.length ≤ fuel →
      NoAdjWS (squeezeRun isJSWhitespace 1 [32] fuel l) := by
  intro fuel
  induction fuel with
  | zero =>
    intro l hl
    have : l = [] := List.length_eq_zero.mp (Nat.le_zero.mp hl)
    rw [this]
    exact List.chain'_nil
  | succ f ih =>
    intro l hl
    match l with
    | [] => exact List.chain'_nil
    | c :: rest =>
      unfold squeezeRun
      by_cases hc : isJSWhitespace c
      · rw [if_pos hc, if_pos (by simp)]
        rw [show ([32] : Text) ++ squeezeRun isJSWhitespace 1 [32] f (rest.dropWhile isJSWhitespace)
            = 32 :: squeezeRun isJSWhitespace 1 [32] f (rest.dropWhile isJSWhitespace) from rfl]
        rw [NoAdjWS, List.chain'_cons']
        constructor
        · intro y hy
          cases hrd : (rest.dropWhile isJSWhitespace).head? with
          | none =>
            exfalso
            cases hr : rest.dropWhile isJSWhitespace with
            | nil => rw [hr] at hy; cases f <;> simp [squeezeRun] at hy
            | cons z zs => rw [hr] at hrd; simp at hrd
          | some z =>
            have hz : isJSWhitespace z = false := dropWhile_head_not hrd
            rw [squeezeRun_head_of_not f hrd hz] at hy
            simp at hy
            rw [← hy]
            intro hfalse
            rw [hz] at hfalse
            exact Bool.false_ne_true hfalse.2
        · exact ih _ (le_trans (length_dropWhile_le _ _) (by simpa using hl))
      · rw [if_neg hc]
        rw [NoAdjWS, List.chain'_cons']
        constructor
        · intro y _
          intro hfalse
          simp [hc] at hfalse
        · exact ih _ (by simpa using hl)

theorem squeezeRun_one_fixed :
    ∀ (fuel : Nat) (l : Text), l.length ≤ fuel →
      (∀ c ∈ l, isJSWhitespace c = true → c = 32) → NoAdjWS l →
      squeezeRun isJSWhitespace 1 [32] fuel l = l := by
  intro fuel
  induction fuel with
  | zero =>
    intro l hl _ _
    have : l = [] := List.length_eq_zero.mp (Nat.le_zero.mp hl)
    rw [this]
    rfl
  | succ f ih =>
    intro l hl hws hadj
    match l with
    | [] => rfl
    | c :: rest =>
      unfold squeezeRun
      have hrest_len : rest.length ≤ f := by simpa using hl
      have hadj_rest : NoAdjWS rest := (List.chain'_cons'.mp hadj).2
      by_cases hc : isJSWhitespace c
      · rw [if_pos hc, if_pos (by simp)]
        have hc32 : c = 32 := hws c (by simp) hc
        have hhead : ∀ x, rest.head? = some x → isJSWhitespace x = false := by
          intro x hx
          have := (List.chain'_cons'.mp hadj).1 x hx
          by_contra hxx
          exact this ⟨hc, by simpa using hxx⟩
        rw [dropWhile_eq_self_of_head hhead]
        rw [ih _ hrest_len (fun d hd => hws d (List.mem_cons_of_mem _ hd)) hadj_rest]
        rw [hc32]
        rfl
      · rw [if_neg hc]
        rw [ih _ hrest_len (fun d hd => hws d (List.mem_cons_of_mem _ hd)) hadj_rest]

/-! ## NoAdjWS is preserved by dropWhile, reverse, trim -/

theorem noAdjWS_tail {c : Nat} {l : Text} (h : NoAdjWS (c :: l)) : NoAdjWS l :=
  (List.chain'_cons'.mp h).2

theorem noAdjWS_dropWhile (p : Nat → Bool) :
    ∀ {l : Text}, NoAdjWS l → NoAdjWS (l.dropWhile p) := by
  intro l h
  induction l with
  | nil => exact h
  | cons c rest ih =>
    rw [List.dropWhile_cons]
    by_cases hc : p c
    · rw [if_pos hc]
      exact ih (noAdjWS_tail h)
    · rw [if_neg hc]
      exact h

theorem noAdjWS_reverse {l : Text} (h : NoAdjWS l) : NoAdjWS l.reverse := by
  rw [NoAdjWS, List.chain'_reverse]
  exact h.imp (fun a b hab hp => hab ⟨hp.2, hp.1⟩)

theorem noAdjWS_trimChars {l : Text} (h : NoAdjWS l) : NoAdjWS (trimChars l) := by
  unfold trimChars
  exact noAdjWS_reverse (noAdjWS_dropWhile _ (noAdjWS_reverse (noAdjWS_dropWhile _ h)))

/-! ## Arithmetic facts about the character classes -/

theorem isWordChar_not_ws {c : Nat} (h : isWordChar c = true) :
    isJSWhitespace c = false := by
  rw [Bool.eq_false_iff]
  intro hws
  simp only [isWordChar, Bool.or_eq_true, Bool.and_eq_true, decide_eq_true_eq,
    beq_iff_eq] at h
  simp only [isJSWhitespace, Bool.or_eq_true, Bool.and_eq_true, decide_eq_true_eq,
    beq_iff_eq] at hws
  omega

theorem mapQuote_toLower_not_upper (x : Nat) :
    (65 ≤ mapQuote (toLowerJS x) && mapQuote (toLowerJS x) ≤ 90) = false := by
  unfold mapQuote toLowerJS
  by_cases h1 : (65 ≤ x && x ≤ 90) = true
  · rw [if_pos h1]
    simp only [Bool.and_eq_true, decide_eq_true_eq] at h1
    have : ¬(x + 32 == 8217 || x + 32 == 39) = true := by
      simp only [Bool.or_eq_true, beq_iff_eq]
      omega
    rw [if_neg this]
    simp only [Bool.and_eq_false_iff, decide_eq_false_iff_not]
    omega
  · rw [if_neg h1]
    simp only [Bool.and_eq_true, decide_eq_true_eq] at h1
    push_neg at h1
    by_cases h2 : (x == 8217 || x == 39) = true
    · rw [if_pos h2]
      decide
    · rw [if_neg h2]
      simp only [Bool.and_eq_false_iff, decide_eq_false_iff_not]
      omega

/-! ## Every character of `normalizeJoke`'s output is normal -/

theorem normalChar_of_mem_normalizeJoke {a : Nat} {l : Text}
    (h : a ∈ normalizeJoke l) : normalChar a = true := by
  unfold normalizeJoke at h
  simp only [] at h
  have h3 := mem_trimChars h
  rcases mem_squeezeRun_one _ _ le_rfl h3 with ⟨h2, hws⟩ | h2
  · rw [List.mem_filter] at h2
    obtain ⟨h1, hcls⟩ := h2
    have hword : isWordChar a = true := by
      rcases Bool.or_eq_true_iff.mp hcls with h | h
      · exact h
      · rw [h] at hws
        exact absurd hws (by simp)
    rw [List.mem_map] at h1
    obtain ⟨y, hy, hya⟩ := h1
    rw [List.mem_map] at hy
    obtain ⟨x, _, hxy⟩ := hy
    have hupper := mapQuote_toLower_not_upper x
    rw [hxy, hya] at hupper
    unfold normalChar
    rw [hword, hupper]
    simp
  · unfold normalChar
    simp at h2
    rw [h2]
    decide

theorem noAdjWS_normalizeJoke (l : Text) : NoAdjWS (normalizeJoke l) := by
  unfold normalizeJoke
  simp only []
  exact noAdjWS_trimChars (squeezeRun_noAdjWS _ _ le_rfl)

/-! ## Normal characters are fixed by every normalization stage -/

theorem normalChar_arith {a : Nat} (h : normalChar a = true) :
    (48 ≤ a ∧ a ≤ 57) ∨ (97 ≤ a ∧ a ≤ 122) ∨ a = 95 ∨ a = 32 := by
  simp only [normalChar, isWordChar, Bool.or_eq_true, Bool.and_eq_true,
    decide_eq_true_eq, beq_iff_eq, Bool.not_eq_true', Bool.and_eq_false_iff,
    decide_eq_false_iff_not, not_le] at h
  omega

theorem toLowerJS_of_normal {a : Nat} (h : normalChar a = true) : toLowerJS a = a := by
  have := normalChar_arith h
  unfold toLowerJS
  rw [if_neg]
  simp only [Bool.and_eq_true, decide_eq_true_eq, not_and, not_le]
  omega

theorem mapQuote_of_normal {a : Nat} (h : normalChar a = true) : mapQuote a = a := by
  have := normalChar_arith h
  unfold mapQuote
  rw [if_neg]
  simp only [Bool.or_eq_true, beq_iff_eq, not_or]
  omega

theorem filter_pass_of_normal {a : Nat} (h : normalChar a = true) :
    (isWordChar a || isJSWhitespace a) = true := by
  have := normalChar_arith h
  simp only [isWordChar, isJSWhitespace, Bool.or_eq_true, Bool.and_eq_true,
    decide_eq_true_eq, beq_iff_eq]
  omega

theorem ws_eq_space_of_normal {a : Nat} (h : normalChar a = true)
    (hws : isJSWhitespace a = true) : a = 32 := by
  have := normalChar_arith h
  simp only [isJSWhitespace, Bool.or_eq_true, Bool.and_eq_true,
    decide_eq_true_eq, beq_iff_eq] at hws
  omega

theorem map_eq_self_of_fixed {f : Nat → Nat} :
    ∀ {l : Text}, (∀ a ∈ l, f a = a) → l.map f = l := by
  intro l h
  induction l with
  | nil => rfl
  | cons c rest ih =>
    rw [List.map_cons, h c (by simp), ih (fun a ha => h a (List.mem_cons_of_mem _ ha))]

theorem trimChars_normalizeJoke (l : Text) :
    trimChars (normalizeJoke l) = normalizeJoke l := by
  unfold normalizeJoke
  simp only []
  rw [trimChars_idem]

/-- A string whose characters are all normal, with no adjacent
whitespace and no surrounding whitespace, is a fixed point of
`normalizeJoke`. -/
theorem normalizeJoke_fixed {m : Text} (hN : ∀ a ∈ m, normalChar a = true)
    (hAdj : NoAdjWS m) (htr : trimChars m = m) : normalizeJoke m = m := by
  unfold normalizeJoke
  simp only []
  rw [map_eq_self_of_fixed (fun a ha => toLowerJS_of_normal (hN a ha))]
  rw [map_eq_self_of_fixed (fun a ha => mapQuote_of_normal (hN a ha))]
  rw [List.filter_eq_self.mpr (fun a ha => filter_pass_of_normal (hN a ha))]
  rw [squeezeRun_one_fixed m.length m le_rfl
    (fun c hc hws => ws_eq_space_of_normal (hN c hc) hws) hAdj]
  exact htr

/-- `normalize` is idempotent. -/
theorem normalizeJoke_idem (l : Text) :
    normalizeJoke (normalizeJoke l) = normalizeJoke l :=
  normalizeJoke_fixed (fun _ ha => normalChar_of_mem_normalizeJoke ha)
    (noAdjWS_normalizeJoke l) (trimChars_normalizeJoke l)

/-! ## Base-36 rendering: round trip and injectivity -/

theorem toDigits36_sound :
    ∀ (f n a : Nat), n ≤ f →
      List.foldl (fun acc d => acc * 36 + d) a (toDigits36 f n) =
        a * 36 ^ (toDigits36 f n).length + n := by
  intro f
  induction f with
  | zero =>
    intro n a hn
    have : n = 0 := Nat.le_zero.mp hn
    simp [toDigits36, this]
  | succ f ih =>
    intro n a hn
    by_cases h0 : n = 0
    · simp [toDigits36, h0]
    · unfold toDigits36
      rw [if_neg h0]
      have hdivle : n / 36 ≤ f := by
        have : n / 36 < n := Nat.div_lt_self (Nat.pos_of_ne_zero h0) (by omega)
        omega
      rw [List.foldl_append, List.length_append]
      rw [ih _ a hdivle]
      simp only [List.foldl_cons, List.foldl_nil, List.length_singleton]
      rw [Nat.pow_succ]
      have := Nat.div_add_mod n 36
      ring_nf
      omega

theorem ofB36_natToB36 (n : Nat) :
    List.foldl (fun acc d => acc * 36 + d) 0 (natToB36 n) = n := by
  unfold natToB36
  by_cases h0 : n = 0
  · simp [h0]
  · rw [if_neg h0, toDigits36_sound n n 0 le_rfl]
    simp

theorem natToB36_injective {n1 n2 : Nat} (h : natToB36 n1 = natToB36 n2) : n1 = n2 := by
  have h1 := ofB36_natToB36 n1
  have h2 := ofB36_natToB36 n2
  rw [h] at h1
  omega

theorem toDigits36_lt :
    ∀ (f n : Nat), ∀ d ∈ toDigits36 f n, d < 36 := by
  intro f
  induction f with
  | zero => intro n d hd; simp [toDigits36] at hd
  | succ f ih =>
    intro n d hd
    unfold toDigits36 at hd
    by_cases h0 : n = 0
    · simp [h0] at hd
    · rw [if_neg h0] at hd
      rcases List.mem_append.mp hd with hd | hd
      · exact ih _ _ hd
      · simp at hd
        rw [hd]
        exact Nat.mod_lt _ (by omega)

theorem natToB36_lt (n : Nat) : ∀ d ∈ natToB36 n, d < 36 := by
  intro d hd
  unfold natToB36 at hd
  by_cases h0 : n = 0
  · rw [if_pos h0] at hd
    simp at hd
    omega
  · rw [if_neg h0] at hd
    exact toDigits36_lt _ _ _ hd

theorem b36digitCode_inj {d1 d2 : Nat} (h1 : d1 < 36) (h2 : d2 < 36)
    (h : b36digitCode d1 = b36digitCode d2) : d1 = d2 := by
  unfold b36digitCode at h
  by_cases c1 : d1 < 10 <;> by_cases c2 : d2 < 10 <;>
    simp only [c1, c2, if_true, if_false] at h <;> omega

theorem map_b36digitCode_inj :
    ∀ {l1 l2 : List Nat}, (∀ d ∈ l1, d < 36) → (∀ d ∈ l2, d < 36) →
      l1.map b36digitCode = l2.map b36digitCode → l1 = l2 := by
  intro l1
  induction l1 with
  | nil => intro l2 _ _ h; cases l2 <;> simp at h ⊢
  | cons d1 rest1 ih =>
    intro l2 h1 h2 h
    cases l2 with
    | nil => simp at h
    | cons d2 rest2 =>
      simp only [List.map_cons, List.cons.injEq] at h
      have hd := b36digitCode_inj (h1 d1 (by simp)) (h2 d2 (by simp)) h.1
      rw [hd, ih (fun d hd => h1 d (List.mem_cons_of_mem _ hd))
        (fun d hd => h2 d (List.mem_cons_of_mem _ hd)) h.2]

/-- Two `makeId` calls with distinct (random string, timestamp) inputs
whose timestamps render at the same base-36 length yield distinct
tokens. -/
theorem makeId_inj {r1 r2 : Text} {t1 t2 : Nat}
    (hne : (r1, t1) ≠ (r2, t2))
    (hlen : (natToB36 t1).length = (natToB36 t2).length) :
    makeId r1 t1 ≠ makeId r2 t2 := by
  intro h
  unfold makeId at h
  have hlen2 : ((natToB36 t1).map b36digitCode).length =
      ((natToB36 t2).map b36digitCode).length := by
    rw [List.length_map, List.length_map, hlen]
  obtain ⟨hr, hm⟩ := List.append_inj' h hlen2
  have ht := natToB36_injective (map_b36digitCode_inj (natToB36_lt t1) (natToB36_lt t2) hm)
  exact hne (by rw [hr, ht])

/-! ## Cache lemmas -/

theorem cacheGet_sweep_none {c : TtsCache} {id : Text} {now : Nat}
    (h : ∀ p ∈ c, p.1 = id → p.2.expiresAt < now) :
    cacheGet (sweepTtsCache now c) id = none := by
  induction c with
  | nil => rfl
  | cons p rest ih =>
    unfold sweepTtsCache
    rw [List.filter_cons]
    by_cases hk : (!(decide (p.2.expiresAt < now))) = true
    · rw [if_pos hk]
      unfold cacheGet
      have hp : ¬p.1 = id := by
        intro e
        have := h p (by simp) e
        simp [this] at hk
      rw [if_neg hp]
      exact ih (fun q hq e => h q (List.mem_cons_of_mem _ hq) e)
    · rw [if_neg hk]
      exact ih (fun q hq e => h q (List.mem_cons_of_mem _ hq) e)

/-! ## The joke retry loop under a constantly repeated generator -/

theorem jokeLoop_repeated (gen : Nat → Text) (history : List Text)
    (h : ∀ n, isRepeatedJoke
      (if trimChars (gen n) = [] then glitchW else trimChars (gen n)) history = true) :
    ∀ (b attempt : Nat), jokeLoop gen history attempt b = (cannedW, b) := by
  intro b
  induction b with
  | zero => intro a; rfl
  | succ n ih =>
    intro a
    unfold jokeLoop
    simp only []
    rw [h a, if_pos rfl, ih (a + 1)]

/-! ## Claim theorems -/

/-- Claim C1, counterexample: the `GET /tts-stream/:id` handler never
consults `expiresAt`.  With a cached entry that expired at time 5, at
time 10 — expiry passed, sweep not yet run — the handler still streams
the payload instead of returning 404, so an expired-but-unswept entry
IS returned as a hit. -/
theorem c1_expired_hit_counterexample :
    cacheGet cacheEx tokW = some ⟨⟨helloW, softW⟩, 5⟩ ∧ 5 < 10 ∧
      ttsStreamHandler cacheEx tokW = TtsStreamResponse.stream helloW softW := by
  decide

/-- Claim C1, amended: lookup on `GET /tts-stream/:id` misses (404)
exactly when the token is absent from the cache map; an expired entry
becomes a miss only once a sweep at a time past its expiry has removed
it (here: when every binding of the token has `expiresAt < now`, the
handler misses after `sweep(now)`). -/
theorem c1_lookup_miss_amended (c : TtsCache) (id : Text) (now : Nat) :
    (ttsStreamHandler c id = TtsStreamResponse.notFound 404 ttsNotFoundW ↔
      cacheGet c id = none) ∧
    ((∀ p ∈ c, p.1 = id → p.2.expiresAt < now) →
      ttsStreamHandler (sweepTtsCache now c) id =
        TtsStreamResponse.notFound 404 ttsNotFoundW) := by
  constructor
  · cases hc : cacheGet c id with
    | none => simp [ttsStreamHandler, hc]
    | some e => simp [ttsStreamHandler, hc]
  · intro h
    rw [ttsStreamHandler, cacheGet_sweep_none h]

/-- Claim C1, witness for the amended theorem at a concrete cache. -/
theorem c1_lookup_miss_amended_witness :
    ttsStreamHandler (sweepTtsCache 10 cacheEx) tokW =
      TtsStreamResponse.notFound 404 ttsNotFoundW :=
  (c1_lookup_miss_amended cacheEx tokW 10).2 (by decide)

/-- Claim C2, counterexample: the sweep deletes on `expiresAt < now`
(strict), so an entry whose `expiresAt` equals `now` — which the claim
says must be removed (`expiresAt <= now`) — survives the sweep. -/
theorem c2_sweep_boundary_counterexample :
    (tokW, (⟨⟨helloW, softW⟩, 5⟩ : TtsCacheEntry)) ∈ sweepTtsCache 5 cacheEx ∧
      (⟨⟨helloW, softW⟩, 5⟩ : TtsCacheEntry).expiresAt ≤ 5 := by
  decide

/-- Claim C2, amended: for every cache state and time `now`, the sweep
removes exactly the entries with `expiresAt < now` (strictly earlier):
an entry survives the sweep iff it was present and its expiry is not
strictly past. -/
theorem c2_sweep_exact_amended (c : TtsCache) (now : Nat)
    (p : Text × TtsCacheEntry) :
    p ∈ sweepTtsCache now c ↔ p ∈ c ∧ ¬(p.2.expiresAt < now) := by
  unfold sweepTtsCache
  rw [List.mem_filter]
  simp

/-- Claim C3, counterexample: `makeId` is a pure function of the
`Math.random` digit string and the `Date.now` timestamp; if two stores
observe the same random value in the same millisecond, the returned
tokens coincide, so tokens are not unconditionally pairwise distinct. -/
theorem c3_duplicate_token_counterexample :
    ¬ ((([([97], 5), ([97], 5)] : List (Text × Nat)).map
        (fun p => makeId p.1 p.2)).Pairwise (fun a b => a ≠ b)) := by
  intro h
  rw [List.pairwise_map] at h
  exact (List.pairwise_cons.mp h).1 ([97], 5) (by simp) rfl

/-- Claim C3, amended: tokens from a sequence of stores are pairwise
distinct provided the underlying (random digit string, timestamp) pairs
are pairwise distinct and the timestamps render at a common base-36
length (as they do within any session, since `Date.now` grows by one
base-36 digit only across eras). -/
theorem c3_tokens_distinct_amended (calls : List (Text × Nat))
    (h : calls.Pairwise (fun p q => p ≠ q ∧
      (natToB36 p.2).length = (natToB36 q.2).length)) :
    (calls.map (fun p => makeId p.1 p.2)).Pairwise (fun a b => a ≠ b) := by
  rw [List.pairwise_map]
  exact h.imp (fun hpq => makeId_inj hpq.1 hpq.2)

/-- Claim C3, witness: two stores with distinct random strings in the
same millisecond yield distinct tokens. -/
theorem c3_tokens_distinct_amended_witness :
    (([([97], 5), ([98], 5)] : List (Text × Nat)).map
      (fun p => makeId p.1 p.2)).Pairwise (fun a b => a ≠ b) :=
  c3_tokens_distinct_amended _ (by decide)

/-- Claim C4, counterexample: the server.js variant's shaping
(`humanCadenceText`, the only transform it applies before synthesis)
performs no symbol substitution: the input "1=2" passes through
unchanged and still contains `=` (code 61). -/
theorem c4_equals_unreplaced_counterexample :
    ServerJs.humanCadenceText oneEqTwoW = oneEqTwoW ∧ (61 : Nat) ∈ oneEqTwoW := by
  decide

/-- Claim C4, amended: in the part_000 variant the shaping applied
before synthesis (`humanCadenceText ∘ ttsFriendly`) does replace
mathematical symbols — in particular no `=` (code 61) survives in the
shaped output for any input; the server.js variant applies no symbol
substitution and passes `=` through unchanged. -/
theorem c4_equals_replaced_amended (l : Text) :
    (61 : Nat) ∉ Part000.preparedForSpeech l :=
  equals_not_mem_prepared l

/-- Claim C5, counterexample: take J to be the canned fallback string
itself.  The history contains (the normal form of) J and the stubbed
generator returns J on every call; the loop exhausts its four attempts
and returns the canned fallback — which IS J, so "never returns J
itself" fails in this degenerate case. -/
theorem c5_returns_j_counterexample :
    isRepeatedJoke cannedW [cannedW] = true ∧
      (getDadAnswerDadjokes (fun _ => cannedW) [cannedW]).1 = cannedW := by
  decide

/-- Claim C5, amended: if the joke computed from the stubbed
generator's constant output J collides with the history, the loop makes
exactly its fixed budget of 4 generator calls and returns the canned
fallback; it returns J itself only in the degenerate case where J is
the canned fallback string. -/
theorem c5_joke_retry_amended (J : Text) (history : List Text)
    (h : isRepeatedJoke (jokeOf J) history = true) :
    getDadAnswerDadjokes (fun _ => J) history = (cannedW, 4) ∧
      (jokeOf J ≠ cannedW →
        (getDadAnswerDadjokes (fun _ => J) history).1 ≠ jokeOf J) := by
  have hmain : getDadAnswerDadjokes (fun _ => J) history = (cannedW, 4) := by
    unfold getDadAnswerDadjokes
    exact jokeLoop_repeated _ _ (fun _ => h) 4 1
  refine ⟨hmain, fun hne => ?_⟩
  rw [hmain]
  exact fun hh => hne hh.symm

/-- Claim C5, witness for the amended theorem: a concrete repeated
joke leads to four attempts and the canned fallback. -/
theorem c5_joke_retry_amended_witness :
    isRepeatedJoke (jokeOf scarecrowW) [scarecrowW] = true ∧
      getDadAnswerDadjokes (fun _ => scarecrowW) [scarecrowW] = (cannedW, 4) :=
  ⟨by decide, (c5_joke_retry_amended scarecrowW [scarecrowW] (by decide)).1⟩

/-- Claim C6, counterexample: the full shaping is not idempotent.
part_000's numbered-list rule re-expands its own output: "1. Go" shapes
to "Step 1: Go", which re-shapes to "Step Step 1: Go". -/
theorem c6_not_idempotent_counterexample :
    Part000.preparedForSpeech (Part000.preparedForSpeech oneDotGoW) ≠
      Part000.preparedForSpeech oneDotGoW := by
  decide

/-- Claim C6, amended: the symbol-substitution stage `ttsFriendly` is
idempotent — applying the shaping twice never double-substitutes a
symbol's spoken word (e.g. "5 equals 5" is left alone) — but the full
shaping is not idempotent, because the cadence pass (numbered-list and
pause rewriting) re-expands its own output. -/
theorem c6_substitution_idempotent_amended (l : Text) :
    Part000.ttsFriendly (Part000.ttsFriendly l) = Part000.ttsFriendly l :=
  ttsFriendly_idem l

/-- Claim C7: the shaped text never exceeds the configured character
budget — 1800 for server.js's `humanCadenceText`, 1700 for the part_000
pipeline `humanCadenceText ∘ ttsFriendly` — because both end with a
`slice(0, n)` followed by `trim`. -/
theorem c7_truncation_bound (l : Text) :
    (ServerJs.humanCadenceText l).length ≤ 1800 ∧
      (Part000.preparedForSpeech l).length ≤ 1700 :=
  ⟨truncTrim_length_le 1800 _, truncTrim_length_le 1700 _⟩

/-- Claim C8: with a missing vendor credential the affected operation
returns its terminal failure without performing any vendor call (the
call list is empty): `callOpenAIChat`/`callOpenAIResponses` with no
`OPENAI_API_KEY` return the missing-key message, and
`streamElevenLabsTTS` with a missing API key or voice id writes the
500 configuration error. -/
theorem c8_missing_credentials (netOk : Bool) (netText : Text)
    (apiKey voiceId : Option Text) (text mode : Text) (net : ElevenNet) :
    callOpenAIChat none netOk netText = ([], (false, missingOpenAIW)) ∧
    callOpenAIResponses none netOk netText = ([], (false, missingOpenAIW)) ∧
    ServerJs.streamElevenLabsTTS none voiceId text mode net =
      ([], StreamResponse.errorJson 500 missingElevenW) ∧
    ServerJs.streamElevenLabsTTS apiKey none text mode net =
      ([], StreamResponse.errorJson 500 missingElevenW) := by
  refine ⟨rfl, rfl, ?_, ?_⟩
  · unfold ServerJs.streamElevenLabsTTS
    rw [if_pos (Or.inl rfl)]
  · unfold ServerJs.streamElevenLabsTTS
    rw [if_pos (Or.inr rfl)]

/-- Claim C9: a `POST /homework-help` request whose `imageBase64` is
longer than 7,000,000 characters is rejected with a 400 and its
message, the cache is untouched, and no vendor call is performed (the
call list is empty) — in both variants. -/
theorem c9_oversized_image (apiKey : Option Text) (question imageBase64 : Text)
    (netOk : Bool) (netText : Text) (r : Text) (now : Nat) (cache : TtsCache)
    (h : 7000000 < imageBase64.length) :
    ServerJs.homeworkHelpHandler apiKey question imageBase64 netOk netText r now cache =
      ([], HomeworkResponse.clientError 400 imageTooLargeW, cache) ∧
    Part000.homeworkHelpHandler apiKey question imageBase64 netOk netText r now cache =
      ([], HomeworkResponse.clientError 400 imageTooLargeP000W, cache) := by
  have hne : imageBase64 ≠ [] := by
    intro e
    rw [e] at h
    simp at h
  constructor
  · unfold ServerJs.homeworkHelpHandler
    rw [if_pos ⟨hne, h⟩]
  · unfold Part000.homeworkHelpHandler
    rw [if_pos ⟨hne, h⟩]

/-- Claim C9, witness: a concrete 7,000,001-character image is
rejected by the server.js handler with no vendor call. -/
theorem c9_oversized_image_witness :
    7000000 < bigImageW.length ∧
      ServerJs.homeworkHelpHandler none [] bigImageW true [] [] 0 [] =
        ([], HomeworkResponse.clientError 400 imageTooLargeW, []) := by
  have hlen : 7000000 < bigImageW.length := by
    unfold bigImageW
    rw [List.length_replicate]
    omega
  exact ⟨hlen, (c9_oversized_image none [] bigImageW true [] [] 0 [] hlen).1⟩

/-- Claim C10: joke normalization is idempotent, and repeat detection
depends only on the normal forms of the candidate joke and of the
history entries — so it is invariant under case, punctuation and
whitespace changes on either side. -/
theorem c10_normalize_props :
    (∀ s : Text, normalizeJoke (normalizeJoke s) = normalizeJoke s) ∧
    (∀ (j j' : Text) (h h' : List Text), normalizeJoke j = normalizeJoke j' →
      h.map normalizeJoke = h'.map normalizeJoke →
      isRepeatedJoke j h = isRepeatedJoke j' h') := by
  constructor
  · exact normalizeJoke_idem
  · intro j j' h h' hj hh
    unfold isRepeatedJoke
    have e1 : ∀ (hist : List Text) (jj : Text),
        hist.any (fun x => normalizeJoke x == normalizeJoke jj) =
          (hist.map normalizeJoke).any (fun n => n == normalizeJoke jj) := by
      intro hist jj
      rw [List.any_map]
      rfl
    rw [e1, e1, hh, hj]

/-- Claim C10, witness: concrete case/punctuation/whitespace variants
are detected identically. -/
theorem c10_normalize_props_witness :
    normalizeJoke helloThere1W = normalizeJoke helloThere2W ∧
      [helloThere3W].map normalizeJoke = [helloThere4W].map normalizeJoke ∧
      isRepeatedJoke helloThere1W [helloThere3W] =
        isRepeatedJoke helloThere2W [helloThere4W] :=
  ⟨by decide, by decide,
    c10_normalize_props.2 helloThere1W helloThere2W [helloThere3W] [helloThere4W]
      (by decide) (by decide)⟩
